import Mathlib

/-!
Verification of the todo-tracker repository against its natural-language
specification.

The source is embedded shallowly:

* `Todo` and `DailyStats` mirror the TypeScript interfaces in
  `src/unnamed/part_001` and `src/components/contribution-map.tsx`.
* Calendar days are modelled as integers counting days since the JavaScript
  epoch 1970-01-01 (the unit in which `date-fns`'s `subDays`/`addDays`
  operate after `startOfDay` normalisation).  `dayOfWeek` reproduces
  JavaScript's `Date.prototype.getDay` (day 0 = Thursday, Sunday = 0) and
  `civilFromDays` reproduces the proleptic-Gregorian conversion that backs
  `getMonth`/`format`.
* The `percentage` field is modelled as a rational number: the main app only
  ever stores the integer bucket values, but `window.updateContributionMap`
  in `contribution-map.tsx` stores a true ratio, so the field's type must be
  able to carry non-bucket values.  On every value exhibited in a theorem
  below the JavaScript float arithmetic is exact, so ℚ and IEEE agree there.
* `localStorage.getItem` plus `JSON.parse` is modelled by passing the parse
  outcome: `none` = key absent, `some none` = present but malformed (parse
  throws), `some (some v)` = present and well formed.
-/

/-- `Todo` from src/unnamed/part_001 lines 20-25. -/
structure Todo where
  id : String
  text : String
  completed : Bool
  date : String
deriving Repr, DecidableEq

/-- `DailyStats` from src/unnamed/part_001 lines 27-32 (same interface in both
renderer files).  `percentage` is ℚ, see the header comment. -/
structure DailyStats where
  date : String
  completed : Nat
  total : Nat
  percentage : ℚ
deriving Repr, DecidableEq

/-! ## Date model (the used fragment of `date-fns` / JS `Date`) -/

/-- JavaScript `getDay()` on a day number: 1970-01-01 was a Thursday (4);
Sunday is 0. -/
def dayOfWeek (d : Int) : Int := (d + 4) % 7

/-- Proleptic-Gregorian conversion from days-since-epoch to
(year, month 1-12, day 1-31), as performed by the JavaScript `Date`
object that `date-fns` wraps. -/
def civilFromDays (z0 : Int) : Int × Int × Int :=
  let z := z0 + 719468
  let era : Int := (if 0 ≤ z then z else z - 146096) / 146097
  let doe : Int := z - era * 146097
  let yoe : Int := (doe - doe / 1460 + doe / 36524 - doe / 146096) / 365
  let y : Int := yoe + era * 400
  let doy : Int := doe - (365 * yoe + yoe / 4 - yoe / 100)
  let mp : Int := (5 * doy + 2) / 153
  let dy : Int := doy - (153 * mp + 2) / 5 + 1
  let m : Int := mp + (if mp < 10 then 3 else -9)
  (y + (if m ≤ 2 then 1 else 0), m, dy)

/-- JavaScript `getMonth()`: 0-based month. -/
def getMonth (d : Int) : Int := (civilFromDays d).2.1 - 1

/-- Month abbreviation used by `format(date, "MMM")` (0-based month). -/
def monthAbbrev (m : Int) : String :=
  (["Jan", "Feb", "Mar", "Apr", "May", "Jun", "Jul", "Aug", "Sep", "Oct",
    "Nov", "Dec"]).getD m.toNat ""

/-- Full month name used by `format(date, "MMMM ...")` (0-based month). -/
def monthFull (m : Int) : String :=
  (["January", "February", "March", "April", "May", "June", "July", "August",
    "September", "October", "November", "December"]).getD m.toNat ""

/-- Zero-padding to two digits, as in the `MM`/`dd` format specifiers. -/
def pad2 (n : Int) : String :=
  if n < 10 then "0" ++ toString n else toString n

/-- Zero-padding to four digits, as in the `yyyy` format specifier. -/
def pad4 (n : Int) : String :=
  if n < 10 then "000" ++ toString n
  else if n < 100 then "00" ++ toString n
  else if n < 1000 then "0" ++ toString n
  else toString n

/-- `format(date, "yyyy-MM-dd")`. -/
def formatISO (d : Int) : String :=
  let c := civilFromDays d
  pad4 c.1 ++ "-" ++ pad2 c.2.1 ++ "-" ++ pad2 c.2.2

/-- `format(date, "MMMM d, yyyy")` (tooltip date). -/
def formatLong (d : Int) : String :=
  let c := civilFromDays d
  monthFull (c.2.1 - 1) ++ " " ++ toString c.2.2 ++ ", " ++ toString c.1

/-- JavaScript `String.prototype.trim` restricted to ASCII whitespace:
drops leading and trailing whitespace characters. -/
def jsTrim (s : String) : String :=
  String.mk (((s.data.dropWhile Char.isWhitespace).reverse.dropWhile
    Char.isWhitespace).reverse)

/-! ## Task Store (src/unnamed/part_001) -/

/-- `addTodo` from src/unnamed/part_001 lines 135-150: rejects text whose
trim is empty, otherwise appends a fresh task with `completed := false` and
`date := today`.  `newId` stands for the `crypto.randomUUID()` result. -/
def addTodo (newId today text : String) (todos : List Todo) : List Todo :=
  if jsTrim text = "" then todos
  else todos ++ [{ id := newId, text := text, completed := false, date := today }]

/-- `toggleTodo` from src/unnamed/part_001 lines 152-160. -/
def toggleTodo (id : String) (todos : List Todo) : List Todo :=
  todos.map (fun t => if t.id = id then { t with completed := !t.completed } else t)

/-- `deleteTodo` from src/unnamed/part_001 lines 162-170. -/
def deleteTodo (id : String) (todos : List Todo) : List Todo :=
  todos.filter (fun t => t.id ≠ id)

/-! ## Stats Deriver (src/unnamed/part_001, stats useEffect lines 78-133) -/

/-- Contribution-level buckets from src/unnamed/part_001 lines 123-127:
the chain of conditionals applied to a completed-count. -/
def bucket (c : Nat) : Nat :=
  if c = 0 then 0
  else if c = 1 then 25
  else if c ≤ 3 then 50
  else if c ≤ 5 then 75
  else 100

/-- Lines 83-93: when no entry carries today's date, prepend a fresh entry
for today and drop the last entry (`newStats.slice(0, -1)`); the stat list
is maintained newest-first (see `initialStats`), so the last entry is the
oldest one. -/
def reanchor (todayStr : String) (stats : List DailyStats) : List DailyStats :=
  if stats.any (fun s => s.date == todayStr) then stats
  else { date := todayStr, completed := 0, total := 0, percentage := 0 } ::
    stats.dropLast

/-- Lines 96-101: reset completed/total/percentage of an entry to zero. -/
def resetStat (s : DailyStats) : DailyStats :=
  { s with completed := 0, total := 0, percentage := 0 }

/-- Index at which `Map.set` leaves date `d` in the lines 103-106 lookup map:
the forEach overwrites earlier bindings, so the last index wins. -/
def lastIdxOf (d : String) : List DailyStats → Option Nat
  | [] => none
  | s :: rest =>
    match lastIdxOf d rest with
    | some i => some (i + 1)
    | none => if s.date = d then some 0 else none

/-- In-place update of the entry at index `i` (`newStats[statIndex]`). -/
def modifyIdx : Nat → (DailyStats → DailyStats) → List DailyStats → List DailyStats
  | _, _, [] => []
  | 0, f, s :: rest => f s :: rest
  | n + 1, f, s :: rest => s :: modifyIdx n f rest

/-- Lines 114-127: increment the entry's completed count and store the
bucket of the new count in `percentage`; `total` is left untouched. -/
def bumpStat (s : DailyStats) : DailyStats :=
  { s with completed := s.completed + 1,
           percentage := (bucket (s.completed + 1) : ℚ) }

/-- One iteration of the lines 109-130 forEach over todos: a completed todo
whose date the map `s2` knows increments that entry; others are skipped. -/
def statsStep (s2 : List DailyStats) (acc : List DailyStats) (t : Todo) :
    List DailyStats :=
  if t.completed then
    match lastIdxOf t.date s2 with
    | some i => modifyIdx i bumpStat acc
    | none => acc
  else acc

/-- The whole stats useEffect (lines 78-132): re-anchor to today, reset every
entry, then for each completed todo increment the entry its date maps to
(dates absent from the map are skipped).  The date→index map is built once
from the reset list; updates never change an entry's date, so looking the
index up in the reset list at every step is exactly the code's map. -/
def recompute (todayStr : String) (stats : List DailyStats)
    (todos : List Todo) : List DailyStats :=
  let s2 := (reanchor todayStr stats).map resetStat
  todos.foldl (statsStep s2) s2

/-- Lines 52-64: seed stats with 365 zero entries counting backwards from
today (`today` as a day number), so index 0 is today and index 364 the
oldest day. -/
def initialStats (today : Int) : List DailyStats :=
  (List.range 365).map (fun i : Nat =>
    { date := formatISO (today - (i : Int)), completed := 0, total := 0,
      percentage := 0 })

/-- Specification-side count: the number of tasks carrying date `d` whose
completed flag is set. -/
def countCompleted (todos : List Todo) (d : String) : Nat :=
  (todos.filter (fun t => t.completed && t.date == d)).length

/-! ## Loading from storage

`none` = key absent, `some none` = present but `JSON.parse` throws,
`some (some v)` = present and parses to `v`. -/

/-- The todos half of the load useEffect (src/unnamed/part_001 lines 42-47):
`JSON.parse(savedTodos)` is not guarded, so a malformed value escapes as an
exception (`Except.error`); an absent key leaves the initial `[]`. -/
def loadTodosApp (stored : Option (Option (List Todo))) :
    Except Unit (List Todo) :=
  match stored with
  | none => Except.ok []
  | some none => Except.error ()
  | some (some ts) => Except.ok ts

/-- The stats half of the load useEffect (src/unnamed/part_001 lines 43-65):
unguarded parse again; an absent key seeds `initialStats`. -/
def loadStatsApp (stored : Option (Option (List DailyStats))) (today : Int) :
    Except Unit (List DailyStats) :=
  match stored with
  | none => Except.ok (initialStats today)
  | some none => Except.error ()
  | some (some l) => Except.ok l

/-- The ContributionMap mount effect (src/components/contribution-map.tsx
lines 43-65): reads `contribution-tracker-stats` and falls back to the
`stats` key; both parses sit in try/catch blocks that keep the current
state (`cur`) on failure, so this load never throws. -/
def loadContribStats (saved app : Option (Option (List DailyStats)))
    (cur : List DailyStats) : List DailyStats :=
  match saved with
  | some (some l) => l
  | some none => cur
  | none =>
    match app with
    | some (some l) => l
    | some none => cur
    | none => cur

/-- The days `d + 1 .. d + k`, appended as padding after the final real day
of a week column. -/
def padRange (d : Int) (k : Nat) : List Int :=
  (List.range k).map (fun i : Nat => d + 1 + (i : Int))

/-! ## Calendar Renderer, current component (src/components/contribution-map.tsx) -/

namespace CMap

/-- The `statsMap` lookup (lines 181-185): `Map.set` in a forEach means the
last entry with a given date wins. -/
def statsLookup : List DailyStats → String → Option DailyStats
  | [], _ => none
  | s :: rest, d =>
    match statsLookup rest d with
    | some r => some r
    | none => if s.date = d then some s else none

/-- `eachDayOfInterval({start: subDays(endDate, 364), end: endDate})`
(lines 189-193): the 365 days ending at `today`, ascending. -/
def allDates (today : Int) : List Int :=
  (List.range 365).map (fun i : Nat => today - 364 + (i : Int))

/-- The week-building forEach of lines 196-221.  State: the days still to
process, `currentWeek`, and the `weeks` accumulator.  A Sunday flushes a
non-empty current week; reaching `endDate` pads the current week to 7 cells
with the following (future) days — `padRange d k` is the `for` loop pushing
`addDays(date, 1) .. addDays(date, k)` — and pushes it (the code does not
clear `currentWeek` afterwards, and neither do we). -/
def weeksGo (endD : Int) : List Int → List Int → List (List Int) → List (List Int)
  | [], _, acc => acc
  | d :: rest, cur, acc =>
    let acc1 := if dayOfWeek d = 0 ∧ cur ≠ [] then acc ++ [cur] else acc
    let cur1 := (if dayOfWeek d = 0 ∧ cur ≠ [] then [] else cur) ++ [d]
    if d = endD then
      let cur2 := cur1 ++ padRange d (7 - cur1.length)
      weeksGo endD rest cur2 (acc1 ++ [cur2])
    else
      weeksGo endD rest cur1 acc1

/-- `weeks` of the useMemo (lines 196-221). -/
def weeks (today : Int) : List (List Int) :=
  weeksGo today (allDates today) [] []

/-- The month-label forEach of lines 224-236: `currentMonth` starts at -1;
whenever a day's month differs, push `(format(date, "MMM"), ⌊index / 7⌋)`
and remember the month. -/
def monthsGo : List Int → Nat → Int → List (String × Nat) → List (String × Nat)
  | [], _, _, acc => acc
  | d :: rest, i, curM, acc =>
    if getMonth d = curM then monthsGo rest (i + 1) curM acc
    else monthsGo rest (i + 1) (getMonth d)
      (acc ++ [(monthAbbrev (getMonth d), i / 7)])

/-- `months` of the useMemo (lines 224-236). -/
def months (today : Int) : List (String × Nat) :=
  monthsGo (allDates today) 0 (-1) []

/-- `getColorClass` (lines 242-258). -/
def getColorClass (day : Option DailyStats) : String :=
  match day with
  | none => "bg-[#ebedf0] dark:bg-[#161b22]"
  | some s =>
    if s.completed = 0 then "bg-[#ebedf0] dark:bg-[#161b22]"
    else if 10 ≤ s.completed then "bg-[#39d353] dark:bg-[#39d353]"
    else if 7 ≤ s.completed then "bg-[#26a641] dark:bg-[#26a641]"
    else if 4 ≤ s.completed then "bg-[#006d32] dark:bg-[#006d32]"
    else if 1 ≤ s.completed then "bg-[#0e4429] dark:bg-[#0e4429]"
    else "bg-[#ebedf0] dark:bg-[#161b22]"

/-- `formatTooltip` (lines 261-271). -/
def formatTooltip (day : Option DailyStats) (date : Int) : String :=
  let formattedDate := formatLong date
  match day with
  | none => formattedDate ++ ": No contributions"
  | some s =>
    if s.completed = 0 then formattedDate ++ ": No contributions"
    else formattedDate ++ ": " ++ toString s.completed ++ " contribution" ++
      (if s.completed = 1 then "" else "s")

/-- `isFutureDate` of the grid rendering (line 310): `date > endDate`. -/
def isFutureDate (endD d : Int) : Bool := endD < d

/-- The class attached to a day cell (lines 322-326): transparent for future
cells, otherwise the color class for the stat found under the formatted
date. -/
def cellClass (stats : List DailyStats) (endD d : Int) : String :=
  if isFutureDate endD d then "bg-transparent"
  else getColorClass (statsLookup stats (formatISO d))

/-- `window.updateContributionMap` (lines 123-170): `findIndex` locates the
first entry for today; an existing entry gets its completed count stepped
(decrement clamps at 0) and `percentage` set to the exact ratio
`newCompleted / max(total, 1) * 100`; a missing entry is appended only on
increment, as `{completed: 1, total: 1, percentage: 100}`. -/
def updateContributionMap (todayStr : String) (increment : Bool)
    (prevStats : List DailyStats) : List DailyStats :=
  match prevStats.findIdx? (fun s => s.date == todayStr) with
  | some i =>
    modifyIdx i
      (fun s =>
        let newC : Nat := if increment then s.completed + 1 else s.completed - 1
        { s with completed := newC,
                 percentage := ((newC : ℚ) / (max s.total 1 : Nat)) * 100 })
      prevStats
  | none =>
    if increment then
      prevStats ++ [{ date := todayStr, completed := 1, total := 1,
                      percentage := 100 }]
    else prevStats

end CMap

/-! ## Calendar Renderer, older copy (src/unnamed/part_000) -/

namespace CMapOld

/-- The `statsMap` lookup of part_000 lines 43-46. -/
def statsLookup : List DailyStats → String → Option DailyStats
  | [], _ => none
  | s :: rest, d =>
    match statsLookup rest d with
    | some r => some r
    | none => if s.date = d then some s else none

/-- part_000 lines 49-54. -/
def allDates (today : Int) : List Int :=
  (List.range 365).map (fun i : Nat => today - 364 + (i : Int))

/-- part_000 lines 56-82 (week building). -/
def weeksGo (endD : Int) : List Int → List Int → List (List Int) → List (List Int)
  | [], _, acc => acc
  | d :: rest, cur, acc =>
    let acc1 := if dayOfWeek d = 0 ∧ cur ≠ [] then acc ++ [cur] else acc
    let cur1 := (if dayOfWeek d = 0 ∧ cur ≠ [] then [] else cur) ++ [d]
    if d = endD then
      let cur2 := cur1 ++ padRange d (7 - cur1.length)
      weeksGo endD rest cur2 (acc1 ++ [cur2])
    else
      weeksGo endD rest cur1 acc1

/-- part_000 lines 56-82. -/
def weeks (today : Int) : List (List Int) :=
  weeksGo today (allDates today) [] []

/-- part_000 lines 84-97 (month labels). -/
def monthsGo : List Int → Nat → Int → List (String × Nat) → List (String × Nat)
  | [], _, _, acc => acc
  | d :: rest, i, curM, acc =>
    if getMonth d = curM then monthsGo rest (i + 1) curM acc
    else monthsGo rest (i + 1) (getMonth d)
      (acc ++ [(monthAbbrev (getMonth d), i / 7)])

/-- part_000 lines 84-97. -/
def months (today : Int) : List (String × Nat) :=
  monthsGo (allDates today) 0 (-1) []

/-- part_000 lines 103-116. -/
def getColorClass (day : Option DailyStats) : String :=
  match day with
  | none => "bg-[#ebedf0] dark:bg-[#161b22]"
  | some s =>
    if s.completed = 0 then "bg-[#ebedf0] dark:bg-[#161b22]"
    else if 10 ≤ s.completed then "bg-[#39d353] dark:bg-[#39d353]"
    else if 7 ≤ s.completed then "bg-[#26a641] dark:bg-[#26a641]"
    else if 4 ≤ s.completed then "bg-[#006d32] dark:bg-[#006d32]"
    else if 1 ≤ s.completed then "bg-[#0e4429] dark:bg-[#0e4429]"
    else "bg-[#ebedf0] dark:bg-[#161b22]"

/-- part_000 lines 119-129. -/
def formatTooltip (day : Option DailyStats) (date : Int) : String :=
  let formattedDate := formatLong date
  match day with
  | none => formattedDate ++ ": No contributions"
  | some s =>
    if s.completed = 0 then formattedDate ++ ": No contributions"
    else formattedDate ++ ": " ++ toString s.completed ++ " contribution" ++
      (if s.completed = 1 then "" else "s")

end CMapOld

/-! ## Specification-side definitions -/

/-- The trailing synthetic padding the renderer appends after `today`:
`6 - weekday(today)` future days (the last column holds
`weekday(today) + 1` real days). -/
def padFor (today : Int) : List Int :=
  (List.range (6 - dayOfWeek today).toNat).map
    (fun i : Nat => today + 1 + (i : Int))

/-- The spec's month-label pass: walking the days with the previous day's
month at hand (`none` before the first day), emit a label precisely when
the month differs from the previous day's, anchored at ⌊position / 7⌋. -/
def monthLabelsFrom : Option Int → Nat → List Int → List (String × Nat)
  | _, _, [] => []
  | prev, i, d :: rest =>
    (if prev = some (getMonth d) then [] else [(monthAbbrev (getMonth d), i / 7)])
      ++ monthLabelsFrom (some (getMonth d)) (i + 1) rest

/-- Labels of `monthLabelsFrom` started with no previous day. -/
def monthLabelsSpec (dates : List Int) : List (String × Nat) :=
  monthLabelsFrom none 0 dates

/-- Index of the week-column that contains day `d`. -/
def columnIndex (cols : List (List Int)) (d : Int) : Nat :=
  cols.findIdx (fun c => c.contains d)

/-- The five bucket values the data model allows for `percentage`. -/
def isBucketVal (q : ℚ) : Prop :=
  q = 0 ∨ q = 25 ∨ q = 50 ∨ q = 75 ∨ q = 100

instance (q : ℚ) : Decidable (isBucketVal q) := by
  unfold isBucketVal
  infer_instance

/-! ## Theorems -/

set_option maxRecDepth 100000

/-- C2: the percentage bucket computed by the Stats Deriver is exact at every
boundary — completed = 0 maps to 0, 1 to 25, 2..3 to 50, 4..5 to 75 and 6 or
more to 100 — and the mapping is monotone in the completed count. -/
theorem bucket_boundaries_monotone :
    bucket 0 = 0 ∧ bucket 1 = 25 ∧
    (∀ c : Nat, 2 ≤ c → c ≤ 3 → bucket c = 50) ∧
    (∀ c : Nat, 4 ≤ c → c ≤ 5 → bucket c = 75) ∧
    (∀ c : Nat, 6 ≤ c → bucket c = 100) ∧
    (∀ a b : Nat, a ≤ b → bucket a ≤ bucket b) := by
  refine ⟨rfl, rfl, ?_, ?_, ?_, ?_⟩ <;>
    · intros
      unfold bucket
      split_ifs <;> omega

theorem bucket_boundaries_monotone_witness :
    bucket 2 = 50 ∧ bucket 5 = 75 ∧ bucket 6 = 100 ∧ bucket 3 ≤ bucket 4 :=
  ⟨bucket_boundaries_monotone.2.2.1 2 (by decide) (by decide),
   bucket_boundaries_monotone.2.2.2.1 5 (by decide) (by decide),
   bucket_boundaries_monotone.2.2.2.2.1 6 (by decide),
   bucket_boundaries_monotone.2.2.2.2.2 3 4 (by decide)⟩

/-- C7: adding a task whose text does not trim to empty appends exactly one
task, not completed and dated today; empty or whitespace-only text leaves
the list unchanged (and raises nothing — `addTodo` is total). -/
theorem addTodo_spec (newId today text : String) (todos : List Todo) :
    (jsTrim text ≠ "" →
      (addTodo newId today text todos).length = todos.length + 1 ∧
      addTodo newId today text todos =
        todos ++ [{ id := newId, text := text, completed := false,
                    date := today }]) ∧
    (jsTrim text = "" → addTodo newId today text todos = todos) := by
  constructor
  · intro h
    rw [addTodo, if_neg h]
    simp
  · intro h
    rw [addTodo, if_pos h]

theorem addTodo_spec_witness :
    (addTodo "id1" "2025-10-11" "buy milk" []).length = 1 ∧
    addTodo "id1" "2025-10-11" "   " [] = [] :=
  ⟨((addTodo_spec "id1" "2025-10-11" "buy milk" []).1 (by decide)).1,
   (addTodo_spec "id1" "2025-10-11" "   " []).2 (by decide)⟩

/-- C8: toggling the same id twice restores the whole task list (hence every
task's completed flag), and toggling an id that no task carries leaves the
list unchanged. -/
theorem toggleTodo_involutive (id : String) (todos : List Todo) :
    toggleTodo id (toggleTodo id todos) = todos ∧
    ((∀ t ∈ todos, t.id ≠ id) → toggleTodo id todos = todos) := by
  constructor
  · induction todos with
    | nil => rfl
    | cons t ts ih =>
      obtain ⟨i, x, c, dt⟩ := t
      simp only [toggleTodo, List.map_cons] at ih ⊢
      by_cases h : i = id <;> simp [h, ih]
  · intro h
    induction todos with
    | nil => rfl
    | cons t ts ih =>
      simp only [toggleTodo, List.map_cons] at ih ⊢
      have ht : t.id ≠ id := h t (List.mem_cons_self t ts)
      rw [if_neg ht]
      have := ih (fun u hu => h u (List.mem_cons_of_mem t hu))
      rw [this]

theorem toggleTodo_involutive_witness :
    toggleTodo "a" (toggleTodo "a"
      [{ id := "a", text := "x", completed := false, date := "d" },
       { id := "b", text := "y", completed := true, date := "d" }]) =
      [{ id := "a", text := "x", completed := false, date := "d" },
       { id := "b", text := "y", completed := true, date := "d" }] ∧
    toggleTodo "c"
      [{ id := "a", text := "x", completed := false, date := "d" }] =
      [{ id := "a", text := "x", completed := false, date := "d" }] :=
  ⟨(toggleTodo_involutive "a" _).1,
   (toggleTodo_involutive "c" _).2 (by decide)⟩

/-- C6: when today's date is absent from a non-empty stat list, the re-anchor
step prepends an entry for today and drops the last entry — the oldest one
in the newest-first order the list is kept in — preserving the list length
(hence a full 365-entry window stays 365 entries); when today is present
the list, and so its set of dates, is unchanged. -/
theorem reanchor_spec (todayStr : String) (stats : List DailyStats) :
    ((∀ s ∈ stats, s.date ≠ todayStr) → stats ≠ [] →
      (reanchor todayStr stats).length = stats.length ∧
      (reanchor todayStr stats).map DailyStats.date =
        todayStr :: (stats.map DailyStats.date).dropLast) ∧
    ((∃ s ∈ stats, s.date = todayStr) → reanchor todayStr stats = stats) := by
  constructor
  · intro habs hne
    have hany : stats.any (fun s => s.date == todayStr) = false := by
      simp only [List.any_eq_false, beq_iff_eq]
      exact habs
    rw [reanchor, hany]
    simp only [Bool.false_eq_true, if_false]
    constructor
    · have : 1 ≤ stats.length := by
        cases stats with
        | nil => exact absurd rfl hne
        | cons a l => simp
      simp only [List.length_cons, List.length_dropLast]
      omega
    · simp [List.map_dropLast]
  · intro hex
    have hany : stats.any (fun s => s.date == todayStr) = true := by
      simp only [List.any_eq_true, beq_iff_eq]
      exact hex
    rw [reanchor, hany]
    simp

theorem reanchor_spec_witness :
    (reanchor "2025-10-11"
      [{ date := "2025-10-10", completed := 0, total := 0, percentage := 0 },
       { date := "2025-10-09", completed := 0, total := 0, percentage := 0 }]).length = 2 ∧
    (reanchor "2025-10-11"
      [{ date := "2025-10-10", completed := 0, total := 0, percentage := 0 },
       { date := "2025-10-09", completed := 0, total := 0, percentage := 0 }]).map
      DailyStats.date = ["2025-10-11", "2025-10-10"] ∧
    reanchor "2025-10-10"
      [{ date := "2025-10-10", completed := 3, total := 0, percentage := 50 }] =
      [{ date := "2025-10-10", completed := 3, total := 0, percentage := 50 }] := by
  have h1 := (reanchor_spec "2025-10-11"
    [{ date := "2025-10-10", completed := 0, total := 0, percentage := 0 },
     { date := "2025-10-09", completed := 0, total := 0, percentage := 0 }]).1
    (by decide) (by decide)
  have h2 := (reanchor_spec "2025-10-10"
    [{ date := "2025-10-10", completed := 3, total := 0, percentage := 50 }]).2
    (by exact ⟨_, List.mem_singleton.mpr rfl, rfl⟩)
  exact ⟨h1.1, h1.2, h2⟩

/-- C9 counterexample: a persisted value under the `todos` key that
`JSON.parse` cannot parse (e.g. a lone opening brace) makes the TodoApp
load effect throw — the parse call on lines 45-47 of src/unnamed/part_001
is not wrapped in try/catch, so the claim that every malformed stored value
is caught and discarded is false. -/
theorem loadTodosApp_throws_on_malformed :
    loadTodosApp (some none) = Except.error () := rfl

/-- C9 amended: the ContributionMap load effect catches malformed values for
both keys it reads and keeps its current state, and absent keys fall back
to defaults everywhere; but TodoApp's unguarded `JSON.parse` lets a
malformed value under `todos` or `stats` escape as an exception. -/
theorem load_error_handling :
    (∀ (app : Option (Option (List DailyStats))) (cur : List DailyStats),
      loadContribStats (some none) app cur = cur) ∧
    (∀ cur : List DailyStats, loadContribStats none (some none) cur = cur) ∧
    (∀ cur : List DailyStats, loadContribStats none none cur = cur) ∧
    loadTodosApp none = Except.ok [] ∧
    (∀ today : Int, loadStatsApp none today = Except.ok (initialStats today)) ∧
    loadTodosApp (some none) = Except.error () ∧
    (∀ today : Int, loadStatsApp (some none) today = Except.error ()) :=
  ⟨fun _ _ => rfl, fun _ => rfl, fun _ => rfl, rfl, fun _ => rfl, rfl,
   fun _ => rfl⟩

/-- Every bucket value, cast to ℚ, is one of the five allowed values. -/
lemma bucket_isBucketVal (n : Nat) : isBucketVal ((bucket n : Nat) : ℚ) := by
  unfold bucket isBucketVal
  split_ifs <;> norm_num

/-- Members of `modifyIdx i f l` are members of `l` or images under `f`. -/
lemma mem_modifyIdx {i : Nat} {f : DailyStats → DailyStats}
    {l : List DailyStats} {s : DailyStats} (h : s ∈ modifyIdx i f l) :
    s ∈ l ∨ ∃ a ∈ l, s = f a := by
  induction l generalizing i with
  | nil => simp [modifyIdx] at h
  | cons a rest ih =>
    cases i with
    | zero =>
      rcases List.mem_cons.mp h with h1 | h1
      · exact Or.inr ⟨a, List.mem_cons_self a rest, h1⟩
      · exact Or.inl (List.mem_cons_of_mem a h1)
    | succ n =>
      rcases List.mem_cons.mp h with h1 | h1
      · exact Or.inl (h1 ▸ List.mem_cons_self a rest)
      · rcases ih h1 with h2 | ⟨b, hb, hs⟩
        · exact Or.inl (List.mem_cons_of_mem a h2)
        · exact Or.inr ⟨b, List.mem_cons_of_mem a hb, hs⟩

/-- The todo fold of the stats useEffect preserves the bucket invariant on
`percentage`. -/
lemma foldl_statsStep_bucket (s2 : List DailyStats) :
    ∀ (todos : List Todo) (acc : List DailyStats),
      (∀ s ∈ acc, isBucketVal s.percentage) →
      ∀ s ∈ todos.foldl (statsStep s2) acc, isBucketVal s.percentage := by
  intro todos
  induction todos with
  | nil => intro acc hacc; simpa using hacc
  | cons t ts ih =>
    intro acc hacc s hs
    rw [List.foldl_cons] at hs
    refine ih (statsStep s2 acc t) ?_ s hs
    intro u hu
    unfold statsStep at hu
    split at hu
    · cases hm : lastIdxOf t.date s2 with
      | none => rw [hm] at hu; exact hacc u hu
      | some i =>
        rw [hm] at hu
        rcases mem_modifyIdx hu with h1 | ⟨a, _, ha⟩
        · exact hacc u h1
        · rw [ha]
          exact bucket_isBucketVal _
    · exact hacc u hu

/-- Two `updateContributionMap(true)` calls starting from an empty stat
list produce a single entry with `percentage = 200`. -/
lemma updateContributionMap_twice :
    CMap.updateContributionMap "2025-10-11" true
      (CMap.updateContributionMap "2025-10-11" true []) =
      [{ date := "2025-10-11", completed := 2, total := 1,
         percentage := 200 }] := by
  have h1 : CMap.updateContributionMap "2025-10-11" true [] =
      [{ date := "2025-10-11", completed := 1, total := 1,
         percentage := 100 }] := rfl
  rw [h1]
  unfold CMap.updateContributionMap
  norm_num [List.findIdx?_cons, modifyIdx]

/-- C5 counterexample: two `updateContributionMap(true)` calls starting from
an empty stat list — the first call appends today's entry as
`{completed: 1, total: 1, percentage: 100}`, the second sets `percentage`
to `2 / max(1,1) * 100 = 200`, which is outside {0,25,50,75,100}.  (The
arithmetic is exact, so the JavaScript float computes the same 200.) -/
theorem updateContributionMap_breaks_bucket :
    ¬ ∀ s ∈ CMap.updateContributionMap "2025-10-11" true
        (CMap.updateContributionMap "2025-10-11" true []),
        isBucketVal s.percentage := by
  rw [updateContributionMap_twice]
  intro h
  have h2 := h _ (List.mem_singleton.mpr rfl)
  rcases h2 with h2 | h2 | h2 | h2 | h2 <;> norm_num at h2

/-- C5 amended: the percentage invariant holds for the operations that the
main data flow performs — every stats recomputation writes only bucket
values, the 365-day seeding writes zeros, and loading (which hands back one
of the stored lists or the current one) preserves it — but it is not
preserved by `window.updateContributionMap`, which stores a true ratio. -/
theorem percentage_bucket_invariant :
    (∀ (todayStr : String) (stats : List DailyStats) (todos : List Todo),
      ∀ s ∈ recompute todayStr stats todos, isBucketVal s.percentage) ∧
    (∀ today : Int, ∀ s ∈ initialStats today, isBucketVal s.percentage) ∧
    (∀ (saved app : Option (Option (List DailyStats))) (cur : List DailyStats),
      (∀ l, saved = some (some l) → ∀ s ∈ l, isBucketVal s.percentage) →
      (∀ l, app = some (some l) → ∀ s ∈ l, isBucketVal s.percentage) →
      (∀ s ∈ cur, isBucketVal s.percentage) →
      ∀ s ∈ loadContribStats saved app cur, isBucketVal s.percentage) := by
  refine ⟨?_, ?_, ?_⟩
  · intro todayStr stats todos s hs
    unfold recompute at hs
    refine foldl_statsStep_bucket _ todos _ ?_ s hs
    intro u hu
    rcases List.mem_map.mp hu with ⟨a, _, ha⟩
    rw [← ha]
    left
    rfl
  · intro today s hs
    rcases List.mem_map.mp hs with ⟨i, _, hi⟩
    rw [← hi]
    left
    rfl
  · intro saved app cur hsaved happ hcur s hs
    unfold loadContribStats at hs
    rcases saved with _ | _ | l
    · rcases app with _ | _ | l
      · exact hcur s hs
      · exact hcur s hs
      · exact happ l rfl s hs
    · exact hcur s hs
    · exact hsaved l rfl s hs

theorem percentage_bucket_invariant_witness :
    ∀ s ∈ loadContribStats
        (some (some [{ date := "2025-10-11", completed := 1, total := 0,
                       percentage := 25 }])) none [],
      isBucketVal s.percentage := by
  refine percentage_bucket_invariant.2.2 _ _ _ ?_ ?_ ?_
  · intro l hl
    injection hl with h1
    injection h1 with h2
    rw [← h2]
    decide
  · intro l hl
    exact Option.noConfusion hl
  · intro s hs
    exact absurd hs (List.not_mem_nil s)

/-! ### Index bookkeeping for the stats fold (claim C1) -/

lemma modifyIdx_length (i : Nat) (f : DailyStats → DailyStats)
    (l : List DailyStats) : (modifyIdx i f l).length = l.length := by
  induction l generalizing i with
  | nil => cases i <;> rfl
  | cons a rest ih =>
    cases i with
    | zero => rfl
    | succ n => simp [modifyIdx, ih]

lemma modifyIdx_getElem?_self (i : Nat) (f : DailyStats → DailyStats)
    (l : List DailyStats) : (modifyIdx i f l)[i]? = (l[i]?).map f := by
  induction l generalizing i with
  | nil => cases i <;> rfl
  | cons a rest ih =>
    cases i with
    | zero => simp [modifyIdx]
    | succ n => simpa [modifyIdx] using ih n

lemma modifyIdx_getElem?_other (i j : Nat) (f : DailyStats → DailyStats)
    (l : List DailyStats) (h : j ≠ i) : (modifyIdx i f l)[j]? = l[j]? := by
  induction l generalizing i j with
  | nil => cases i <;> rfl
  | cons a rest ih =>
    cases i with
    | zero =>
      cases j with
      | zero => exact absurd rfl h
      | succ m => simp [modifyIdx]
    | succ n =>
      cases j with
      | zero => simp [modifyIdx]
      | succ m => simpa [modifyIdx] using ih n m (fun hc => h (by rw [hc]))

lemma lastIdxOf_spec (d : String) (l : List DailyStats) (i : Nat)
    (h : lastIdxOf d l = some i) : ∃ s, l[i]? = some s ∧ s.date = d := by
  induction l generalizing i with
  | nil => exact absurd h (by simp [lastIdxOf])
  | cons a rest ih =>
    rw [lastIdxOf] at h
    cases hr : lastIdxOf d rest with
    | some k =>
      rw [hr] at h
      injection h with h
      rcases ih k hr with ⟨s, hs1, hs2⟩
      exact ⟨s, by rw [← h]; simpa using hs1, hs2⟩
    | none =>
      rw [hr] at h
      by_cases ha : a.date = d
      · rw [if_pos ha] at h
        injection h with h
        exact ⟨a, by rw [← h]; simp, ha⟩
      · rw [if_neg ha] at h
        exact absurd h (by simp)

lemma lastIdxOf_none (d : String) (l : List DailyStats)
    (h : lastIdxOf d l = none) : ∀ s ∈ l, s.date ≠ d := by
  induction l with
  | nil => intro s hs; exact absurd hs (List.not_mem_nil s)
  | cons a rest ih =>
    rw [lastIdxOf] at h
    cases hr : lastIdxOf d rest with
    | some k => rw [hr] at h; exact absurd h (by simp)
    | none =>
      rw [hr] at h
      intro s hs
      rcases List.mem_cons.mp hs with h1 | h1
      · intro hd
        rw [h1] at hd
        rw [if_pos hd] at h
        exact absurd h (by simp)
      · exact ih hr s h1

/-- Under distinct dates, an index position is determined by its date. -/
lemma nodup_date_index (l : List DailyStats)
    (h : (l.map DailyStats.date).Nodup) (i j : Nat) (si sj : DailyStats)
    (hi : l[i]? = some si) (hj : l[j]? = some sj) (hd : si.date = sj.date) :
    i = j := by
  induction l generalizing i j with
  | nil => simp at hi
  | cons a rest ih =>
    rw [List.map_cons, List.nodup_cons] at h
    cases i with
    | zero =>
      cases j with
      | zero => rfl
      | succ m =>
        simp only [List.getElem?_cons_zero] at hi
        injection hi with hi
        simp only [List.getElem?_cons_succ] at hj
        exfalso
        refine h.1 ?_
        rw [List.mem_map]
        exact ⟨sj, List.getElem?_mem hj, by rw [← hd, hi]⟩
    | succ n =>
      cases j with
      | zero =>
        simp only [List.getElem?_cons_zero] at hj
        injection hj with hj
        simp only [List.getElem?_cons_succ] at hi
        exfalso
        refine h.1 ?_
        rw [List.mem_map]
        exact ⟨si, List.getElem?_mem hi, by rw [hd, hj]⟩
      | succ m =>
        simp only [List.getElem?_cons_succ] at hi hj
        rw [ih h.2 n m hi hj]

lemma foldl_statsStep_length (s2 : List DailyStats) (todos : List Todo)
    (acc : List DailyStats) :
    (todos.foldl (statsStep s2) acc).length = acc.length := by
  induction todos generalizing acc with
  | nil => rfl
  | cons t ts ih =>
    rw [List.foldl_cons, ih]
    unfold statsStep
    split
    · cases lastIdxOf t.date s2 with
      | some i => exact modifyIdx_length i bumpStat acc
      | none => rfl
    · rfl

lemma countCompleted_cons (t : Todo) (ts : List Todo) (d : String) :
    countCompleted (t :: ts) d =
      (if t.completed ∧ t.date = d then 1 else 0) + countCompleted ts d := by
  unfold countCompleted
  rw [List.filter_cons]
  by_cases h : t.completed ∧ t.date = d
  · rw [if_pos h, if_pos (by simp [h.1, h.2])]
    simp [Nat.add_comm]
  · rw [if_neg h, if_neg ?_]
    · simp
    · simp only [Bool.and_eq_true, beq_iff_eq]
      exact fun hc => h ⟨hc.1, hc.2⟩

/-- `statsStep` changes no entry's date. -/
lemma statsStep_dates (s2 acc : List DailyStats) (t : Todo) (j : Nat) :
    ((statsStep s2 acc t)[j]?).map DailyStats.date =
      (acc[j]?).map DailyStats.date := by
  unfold statsStep
  split
  · cases hm : lastIdxOf t.date s2 with
    | none => rfl
    | some i =>
      by_cases hj : j = i
      · subst hj
        rw [modifyIdx_getElem?_self]
        cases acc[j]? <;> rfl
      · rw [modifyIdx_getElem?_other i j bumpStat acc hj]
  · rfl

/-- Effect of one `statsStep` on the entry at index `j`, assuming the
accumulator is date-aligned with the lookup list `s2` and `s2` has distinct
dates: the entry is bumped exactly when the todo is completed and carries
its date. -/
lemma statsStep_getElem? (s2 acc : List DailyStats) (t : Todo)
    (hdates : ∀ k : Nat,
      (acc[k]?).map DailyStats.date = (s2[k]?).map DailyStats.date)
    (j : Nat) (a : DailyStats) (ha : acc[j]? = some a)
    (hnd : (s2.map DailyStats.date).Nodup) :
    (statsStep s2 acc t)[j]? =
      some (if t.completed ∧ t.date = a.date then bumpStat a else a) := by
  have hsj : ∃ sj, s2[j]? = some sj ∧ sj.date = a.date := by
    have h1 := hdates j
    rw [ha] at h1
    cases hs2 : s2[j]? with
    | none => rw [hs2] at h1; exact absurd h1 (by simp)
    | some sj =>
      rw [hs2] at h1
      simp only [Option.map_some'] at h1
      injection h1 with h1
      exact ⟨sj, rfl, h1.symm⟩
  rcases hsj with ⟨sj, hsj1, hsj2⟩
  unfold statsStep
  by_cases hcomp : t.completed = true
  · rw [if_pos hcomp]
    cases hm : lastIdxOf t.date s2 with
    | none =>
      have hne := lastIdxOf_none t.date s2 hm sj (List.getElem?_mem hsj1)
      rw [ha, if_neg (fun hc => hne (by rw [hsj2]; exact hc.2.symm))]
    | some i =>
      rcases lastIdxOf_spec t.date s2 i hm with ⟨si, hsi1, hsi2⟩
      by_cases hj : j = i
      · subst hj
        rw [modifyIdx_getElem?_self, ha]
        have hd : t.date = a.date := by
          rw [hsj1] at hsi1
          injection hsi1 with hsi1
          rw [← hsi2, ← hsi1, hsj2]
        rw [if_pos ⟨hcomp, hd⟩]
        rfl
      · rw [modifyIdx_getElem?_other i j bumpStat acc hj, ha,
          if_neg (fun hc => hj (nodup_date_index s2 hnd j i sj si hsj1 hsi1
            (by rw [hsj2, ← hc.2, hsi2])))]
  · rw [if_neg hcomp, ha, if_neg (fun hc => hcomp hc.1)]

/-- The todo fold of the stats useEffect adds, to each entry, exactly the
number of completed todos carrying that entry's date. -/
lemma foldl_statsStep_completed (s2 : List DailyStats)
    (hnd : (s2.map DailyStats.date).Nodup) (todos : List Todo) :
    ∀ (acc : List DailyStats),
      (∀ k : Nat,
        (acc[k]?).map DailyStats.date = (s2[k]?).map DailyStats.date) →
      ∀ (j : Nat) (a b : DailyStats), acc[j]? = some a →
        (todos.foldl (statsStep s2) acc)[j]? = some b →
        b.date = a.date ∧
        b.completed = a.completed + countCompleted todos a.date := by
  induction todos with
  | nil =>
    intro acc _ j a b ha hb
    rw [List.foldl_nil] at hb
    rw [ha] at hb
    injection hb with hb
    subst hb
    exact ⟨rfl, by simp [countCompleted]⟩
  | cons t ts ih =>
    intro acc hdates j a b ha hb
    rw [List.foldl_cons] at hb
    have hstep := statsStep_getElem? s2 acc t hdates j a ha hnd
    have hdates' : ∀ k, ((statsStep s2 acc t)[k]?).map DailyStats.date =
        (s2[k]?).map DailyStats.date :=
      fun k => (statsStep_dates s2 acc t k).trans (hdates k)
    have hres := ih (statsStep s2 acc t) hdates' j _ b hstep hb
    by_cases hc : t.completed ∧ t.date = a.date
    · rw [if_pos hc] at hres
      refine ⟨hres.1, ?_⟩
      rw [countCompleted_cons, if_pos hc]
      have h2 : b.completed = a.completed + 1 + countCompleted ts a.date :=
        hres.2
      omega
    · rw [if_neg hc] at hres
      refine ⟨hres.1, ?_⟩
      rw [countCompleted_cons, if_neg hc]
      have h2 : b.completed = a.completed + countCompleted ts a.date := hres.2
      omega

/-- Re-anchoring keeps the dates distinct. -/
lemma reanchor_dates_nodup (todayStr : String) (stats : List DailyStats)
    (h : (stats.map DailyStats.date).Nodup) :
    ((reanchor todayStr stats).map DailyStats.date).Nodup := by
  unfold reanchor
  split
  · exact h
  · rename_i hany
    rw [List.map_cons, List.nodup_cons]
    constructor
    · intro hmem
      rw [List.map_dropLast] at hmem
      have hmem2 : todayStr ∈ stats.map DailyStats.date :=
        List.dropLast_subset _ hmem
      rcases List.mem_map.mp hmem2 with ⟨s, hs, hdate⟩
      rw [List.any_eq_true] at hany
      exact absurd ⟨s, hs, by rw [beq_iff_eq]; exact hdate⟩ hany
    · rw [List.map_dropLast]
      exact List.Nodup.sublist (List.dropLast_sublist _) h

/-- C1: after a stats recomputation over a stat list with pairwise-distinct
dates (the data model's unique-key invariant), every entry's completed
count equals the number of tasks whose date string-equals the entry's date
and whose completed flag is set. -/
theorem recompute_counts (todayStr : String) (stats : List DailyStats)
    (todos : List Todo) (hnd : (stats.map DailyStats.date).Nodup) :
    ∀ s ∈ recompute todayStr stats todos,
      s.completed = countCompleted todos s.date := by
  intro s hs
  have hrec : recompute todayStr stats todos =
      todos.foldl (statsStep ((reanchor todayStr stats).map resetStat))
        ((reanchor todayStr stats).map resetStat) := rfl
  set s2 := (reanchor todayStr stats).map resetStat with hs2def
  have hnd2 : (s2.map DailyStats.date).Nodup := by
    rw [hs2def, List.map_map]
    have hcomp : (DailyStats.date ∘ resetStat) = DailyStats.date := rfl
    rw [hcomp]
    exact reanchor_dates_nodup todayStr stats hnd
  rw [hrec] at hs
  rcases List.getElem?_of_mem hs with ⟨j, hj⟩
  have hjlt : j < s2.length := by
    have h1 : j < (todos.foldl (statsStep s2) s2).length := by
      by_contra hcon
      rw [List.getElem?_eq_none (by omega)] at hj
      exact Option.noConfusion hj
    rwa [foldl_statsStep_length] at h1
  obtain ⟨a, ha⟩ : ∃ a, s2[j]? = some a := by
    cases hc : s2[j]? with
    | none =>
      rw [List.getElem?_eq_none_iff] at hc
      omega
    | some a => exact ⟨a, rfl⟩
  have key := foldl_statsStep_completed s2 hnd2 todos s2 (fun _ => rfl)
    j a s ha hj
  have hzero : a.completed = 0 := by
    rw [hs2def, List.getElem?_map] at ha
    cases hc : (reanchor todayStr stats)[j]? with
    | none => rw [hc] at ha; exact absurd ha (by simp)
    | some x =>
      rw [hc] at ha
      simp only [Option.map_some'] at ha
      injection ha with ha
      rw [← ha]
      rfl
  rw [key.2, hzero, key.1]
  omega

theorem recompute_counts_witness :
    ({ date := "2025-10-11", completed := 1, total := 0,
       percentage := 25 } : DailyStats).completed =
      countCompleted
        [{ id := "1", text := "a", completed := true, date := "2025-10-11" },
         { id := "2", text := "b", completed := false, date := "2025-10-11" }]
        "2025-10-11" :=
  recompute_counts "2025-10-11"
    [{ date := "2025-10-11", completed := 9, total := 9, percentage := 9 }]
    [{ id := "1", text := "a", completed := true, date := "2025-10-11" },
     { id := "2", text := "b", completed := false, date := "2025-10-11" }]
    (by decide) _ (by decide)

/-! ### The two renderer copies (claim C10) -/

lemma statsLookup_eq (st : List DailyStats) (d : String) :
    CMap.statsLookup st d = CMapOld.statsLookup st d := by
  induction st with
  | nil => rfl
  | cons a rest ih => simp only [CMap.statsLookup, CMapOld.statsLookup, ih]

lemma weeksGo_eq (e : Int) (ds : List Int) :
    ∀ (cur : List Int) (acc : List (List Int)),
      CMap.weeksGo e ds cur acc = CMapOld.weeksGo e ds cur acc := by
  induction ds with
  | nil => intro cur acc; rfl
  | cons d rest ih =>
    intro cur acc
    simp only [CMap.weeksGo, CMapOld.weeksGo]
    split_ifs <;> apply ih

lemma monthsGo_eq (ds : List Int) :
    ∀ (i : Nat) (curM : Int) (acc : List (String × Nat)),
      CMap.monthsGo ds i curM acc = CMapOld.monthsGo ds i curM acc := by
  induction ds with
  | nil => intro i curM acc; rfl
  | cons d rest ih =>
    intro i curM acc
    simp only [CMap.monthsGo, CMapOld.monthsGo]
    split_ifs <;> apply ih

/-- C10: for every stat list and every fixed current day, the component in
src/components/contribution-map.tsx and the copy in src/unnamed/part_000
derive identical outputs: the week-column partition, the month-label list,
the per-day color class, the tooltip text, and the date-keyed stat
lookup feeding them. -/
theorem renderer_refinement :
    (∀ today : Int, CMap.weeks today = CMapOld.weeks today) ∧
    (∀ today : Int, CMap.months today = CMapOld.months today) ∧
    (∀ day : Option DailyStats,
      CMap.getColorClass day = CMapOld.getColorClass day) ∧
    (∀ (day : Option DailyStats) (d : Int),
      CMap.formatTooltip day d = CMapOld.formatTooltip day d) ∧
    (∀ (stats : List DailyStats) (ds : String),
      CMap.statsLookup stats ds = CMapOld.statsLookup stats ds) := by
  refine ⟨?_, ?_, ?_, ?_, ?_⟩
  · intro today
    exact weeksGo_eq today (CMap.allDates today) [] []
  · intro today
    exact monthsGo_eq (CMap.allDates today) 0 (-1) []
  · intro day
    rfl
  · intro day d
    rfl
  · intro stats ds
    exact statsLookup_eq stats ds

/-! ### Shift equivariance of the calendar layout (claims C3, C4) -/

lemma dayOfWeek_shift (d s : Int) (hs : s % 7 = 0) :
    dayOfWeek (d + s) = dayOfWeek d := by
  unfold dayOfWeek
  omega

lemma padRange_shift (d s : Int) (k : Nat) :
    padRange (d + s) k = (padRange d k).map (fun x => x + s) := by
  unfold padRange
  rw [List.map_map]
  apply List.map_congr_left
  intro i _
  simp only [Function.comp_apply]
  ring

lemma weeksGo_shift (s : Int) (hs : s % 7 = 0) (e : Int) (ds : List Int) :
    ∀ (cur : List Int) (acc : List (List Int)),
      CMap.weeksGo (e + s) (ds.map (fun x => x + s))
        (cur.map (fun x => x + s))
        (acc.map (List.map (fun x => x + s))) =
      (CMap.weeksGo e ds cur acc).map (List.map (fun x => x + s)) := by
  induction ds with
  | nil => intro cur acc; rfl
  | cons d rest ih =>
    intro cur acc
    simp only [List.map_cons, CMap.weeksGo, dayOfWeek_shift d s hs,
      ne_eq, List.map_eq_nil_iff,
      show (d + s = e + s) ↔ (d = e) from by omega]
    split_ifs with h1 h2
    · rw [show (([] : List Int) ++ [d + s]).length =
          (([] : List Int) ++ [d]).length from by simp, padRange_shift]
      have h3 := ih (([] : List Int) ++ [d] ++
          padRange d (7 - (([] : List Int) ++ [d]).length))
        ((acc ++ [cur]) ++ [([] : List Int) ++ [d] ++
          padRange d (7 - (([] : List Int) ++ [d]).length)])
      simpa using h3
    · rw [show (List.map (fun x => x + s) cur ++ [d + s]).length =
          (cur ++ [d]).length from by simp, padRange_shift]
      have h3 := ih (cur ++ [d] ++ padRange d (7 - (cur ++ [d]).length))
        (acc ++ [cur ++ [d] ++ padRange d (7 - (cur ++ [d]).length)])
      simpa using h3
    · have h3 := ih (([] : List Int) ++ [d]) (acc ++ [cur])
      simpa using h3
    · have h3 := ih (cur ++ [d]) acc
      simpa using h3

lemma allDates_shift (r s : Int) :
    CMap.allDates (r + s) = (CMap.allDates r).map (fun x => x + s) := by
  unfold CMap.allDates
  rw [List.map_map]
  apply List.map_congr_left
  intro i _
  simp only [Function.comp_apply]
  ring

lemma padFor_shift (r s : Int) (hs : s % 7 = 0) :
    padFor (r + s) = (padFor r).map (fun x => x + s) := by
  unfold padFor
  rw [dayOfWeek_shift r s hs, List.map_map]
  apply List.map_congr_left
  intro i _
  simp only [Function.comp_apply]
  ring

lemma weeks_shift (r s : Int) (hs : s % 7 = 0) :
    CMap.weeks (r + s) = (CMap.weeks r).map (List.map (fun x => x + s)) := by
  unfold CMap.weeks
  rw [allDates_shift]
  exact weeksGo_shift s hs r (CMap.allDates r) [] []

/-- The layout facts at the seven weekday residues, checked by evaluation. -/
lemma weeks_struct_res (r : Int) (hr : 0 ≤ r ∧ r < 7) :
    (CMap.weeks r).map List.length =
      (7 - dayOfWeek r).toNat :: List.replicate 52 7 ∧
    (CMap.weeks r).flatten = CMap.allDates r ++ padFor r ∧
    (CMap.allDates r).getLast? = some r := by
  have h7 : r = 0 ∨ r = 1 ∨ r = 2 ∨ r = 3 ∨ r = 4 ∨ r = 5 ∨ r = 6 := by omega
  rcases h7 with h | h | h | h | h | h | h <;> subst h <;>
    exact ⟨by decide, by decide, by decide⟩

/-- C3 counterexample: with the current date 2025-10-11 (day number 20372, a
Saturday), the first week-column of the rendered grid contains a single
day — `(weeks).map length` starts with 1, not 7 — so the columns do not all
contain exactly 7 rows: only the final column is padded, the first is left
short whenever the 365-day range does not start on a Sunday. -/
theorem calendar_columns_not_all_seven :
    ¬ ∀ c ∈ CMap.weeks 20372, c.length = 7 := by
  decide

/-- C3 amended: the enumeration yields exactly 365 days ending at today, the
week-columns concatenate to those days followed by the trailing synthetic
future padding (`padFor`), every padding cell lies strictly after today and
renders as `bg-transparent` whatever the stats, and every column except the
first has exactly 7 rows — the first has `7 - weekday(today)` rows, which
is 7 only when today's weekday makes the range start on a Sunday. -/
theorem calendar_layout (today : Int) :
    (CMap.allDates today).length = 365 ∧
    (CMap.allDates today).getLast? = some today ∧
    (∀ d ∈ CMap.allDates today, d ≤ today) ∧
    (CMap.weeks today).flatten = CMap.allDates today ++ padFor today ∧
    (CMap.weeks today).map List.length =
      (7 - dayOfWeek today).toNat :: List.replicate 52 7 ∧
    (∀ d ∈ padFor today, today < d ∧
      ∀ stats : List DailyStats,
        CMap.cellClass stats today d = "bg-transparent") := by
  have hr : 0 ≤ today % 7 ∧ today % 7 < 7 := by omega
  have hs : (today - today % 7) % 7 = 0 := by omega
  have hts : today = today % 7 + (today - today % 7) := by omega
  have hstruct := weeks_struct_res (today % 7) hr
  refine ⟨?_, ?_, ?_, ?_, ?_, ?_⟩
  · simp [CMap.allDates]
  · rw [hts, allDates_shift, List.getLast?_map, hstruct.2.2]
    rfl
  · intro d hd
    rcases List.mem_map.mp hd with ⟨i, hi, hdi⟩
    rw [List.mem_range] at hi
    omega
  · rw [hts, weeks_shift _ _ hs, ← List.map_flatten, hstruct.2.1,
      List.map_append, ← allDates_shift, ← padFor_shift _ _ hs]
  · rw [hts, weeks_shift _ _ hs, List.map_map,
      show (List.length ∘ List.map (fun x => x + (today - today % 7))) =
          List.length from funext (fun l => List.length_map l _),
      hstruct.1, dayOfWeek_shift _ _ hs]
  · intro d hd
    have hlt : today < d := by
      rcases List.mem_map.mp hd with ⟨i, hi, hdi⟩
      omega
    refine ⟨hlt, fun stats => ?_⟩
    unfold CMap.cellClass CMap.isFutureDate
    simp [hlt]

theorem calendar_layout_witness :
    (CMap.allDates 20372).length = 365 ∧
    (CMap.allDates 20372).getLast? = some 20372 ∧
    (CMap.weeks 20372).map List.length = 1 :: List.replicate 52 7 ∧
    (20372 : Int) ≤ 20372 ∧
    (20370 : Int) < 20371 ∧
    CMap.cellClass [] 20370 20371 = "bg-transparent" := by
  have h := calendar_layout 20372
  have hpad := (calendar_layout 20370).2.2.2.2.2 20371 (by decide)
  refine ⟨h.1, h.2.1, ?_, h.2.2.1 20372 (by decide), hpad.1, hpad.2 []⟩
  have h2 := h.2.2.2.2.1
  rwa [show ((7 : Int) - dayOfWeek 20372).toNat = 1 from by decide] at h2

/-- JavaScript months are 0-based: `getMonth` always lands in [0, 11], so it
never equals the initial `currentMonth = -1`. -/
lemma getMonth_bounds (d : Int) : 0 ≤ getMonth d ∧ getMonth d ≤ 11 := by
  unfold getMonth civilFromDays
  simp only []
  omega

/-- The month-label forEach agrees with the previous-day description: with
`curM` holding the previous day's month (or -1 with no previous day), it
appends exactly the labels of `monthLabelsFrom`. -/
lemma monthsGo_labels (ds : List Int) :
    ∀ (i : Nat) (curM : Int) (prev : Option Int),
      ((prev = none ∧ curM < 0) ∨ prev = some curM) →
      ∀ acc : List (String × Nat),
        CMap.monthsGo ds i curM acc = acc ++ monthLabelsFrom prev i ds := by
  induction ds with
  | nil =>
    intro i curM prev _ acc
    simp [CMap.monthsGo, monthLabelsFrom]
  | cons d rest ih =>
    intro i curM prev hrel acc
    by_cases h : getMonth d = curM
    · have hprev : prev = some (getMonth d) := by
        rcases hrel with ⟨_, hm⟩ | hp
        · exact absurd ((getMonth_bounds d).1) (by omega)
        · rw [hp, h]
      rw [monthLabelsFrom, hprev]
      simp only [if_pos rfl, List.nil_append]
      rw [CMap.monthsGo, if_pos h]
      exact ih (i + 1) curM (some (getMonth d)) (Or.inr (by rw [h])) acc
    · have hprev : prev ≠ some (getMonth d) := by
        rcases hrel with ⟨hp, _⟩ | hp
        · rw [hp]; exact fun hc => Option.noConfusion hc
        · rw [hp]
          intro hc
          injection hc with hc
          exact h hc.symm
      rw [monthLabelsFrom, if_neg hprev]
      rw [CMap.monthsGo, if_neg h]
      rw [ih (i + 1) (getMonth d) (some (getMonth d)) (Or.inr rfl)
        (acc ++ [(monthAbbrev (getMonth d), i / 7)])]
      simp

/-- C4 amended: scanning the 365 days in order, the label pass emits a label
exactly when the day's calendar month differs from the previous day's month
(the very first day, having no previous day, always emits), and each
label's horizontal index is ⌊position / 7⌋ of the triggering day's position
in the enumeration — which coincides with that day's week-column index only
when the range is aligned so that the first column is full. -/
theorem month_labels (today : Int) :
    CMap.months today = monthLabelsSpec (CMap.allDates today) :=
  (monthsGo_labels (CMap.allDates today) 0 (-1) none
    (Or.inl ⟨rfl, by norm_num⟩) []).trans
    (List.nil_append (monthLabelsFrom none 0 (CMap.allDates today)))

set_option maxHeartbeats 2000000 in
/-- C4 counterexample: with the current date 2025-10-11 (day 20372), the
range starts on Saturday 2024-10-12, so the first week-column holds one
day.  The November label is triggered by 2024-11-01 (day 20028, position
20, month change 9 → 10) and anchored at ⌊20 / 7⌋ = 2, yet that day lies in
week-column 3 — the emitted index is not the triggering day's week-column
index. -/
theorem month_label_not_column_index :
    (CMap.months 20372)[1]? = some ("Nov", 2) ∧
    (CMap.allDates 20372)[20]? = some 20028 ∧
    getMonth 20028 = 10 ∧
    getMonth 20027 = 9 ∧
    columnIndex (CMap.weeks 20372) 20028 = 3 :=
  ⟨by decide, by decide, by decide, by decide, by decide⟩
